import Mathlib

/-!
Verification of the population lifecycle and governance engine of the
Emergent-Civilizations repository (`src/genesis/`).

The Python modules are shallowly embedded: wealth (a Python float used with
exact decimal constants) is modelled as `ℚ`, the society-metric entropy value
as `ℝ`, in-place mutation of agents as functional record updates, and raised
exceptions as `Option`/`Except` results.  The external LLM oracle is a black
box: its textual outputs (offspring prompts, votes) are parameters.

Fields of the base class `GenesisAgent` (module `agent.py`, outside the
analysed sources) that the civilization layer reads are modelled from the
spec: `generation` (a non-negative integer), `system_prompt` (opaque text)
and `get_best_task_type` (the specialization label supplied by the excluded
competition subsystem, `None` when absent).
-/

namespace Genesis

/-- Economic constants from `civilization_agent.py`. -/
def STARTING_WEALTH : ℚ := 100

/-- Cost an agent pays to reproduce (`REPRODUCTION_COST = 200.0`). -/
def REPRODUCTION_COST : ℚ := 200

/-- Starting wealth of an offspring (`CHILD_STARTING_WEALTH = 50.0`). -/
def CHILD_STARTING_WEALTH : ℚ := 50

/-- Per-round participation cost (`PARTICIPATION_COST = 1.0`). -/
def PARTICIPATION_COST : ℚ := 1

/-- Embedding of the dataclass `CivilizationAgent` (`civilization_agent.py`).
`generation`, `system_prompt` and `best_task_type` are inherited from the
out-of-scope `GenesisAgent` base class; they are modelled from the spec
(generation counter, opaque role text, specialization label). -/
structure CivilizationAgent where
  id : String
  system_prompt : String := ""
  generation : ℕ := 0
  best_task_type : Option String := none
  wealth : ℚ := STARTING_WEALTH
  age : ℕ := 0
  parent_id : Option String := none
  children_ids : List String := []
  dynasty_id : Option String := none
deriving DecidableEq, Repr

/-- `CivilizationAgent.can_reproduce`: wealth at least `REPRODUCTION_COST`. -/
def can_reproduce (a : CivilizationAgent) : Bool :=
  REPRODUCTION_COST ≤ a.wealth

/-- `CivilizationAgent.is_alive`: strictly positive wealth. -/
def is_alive (a : CivilizationAgent) : Bool :=
  0 < a.wealth

/-- `CivilizationAgent.pay_reproduction_cost`: deduct the reproduction cost. -/
def pay_reproduction_cost (a : CivilizationAgent) : CivilizationAgent :=
  { a with wealth := a.wealth - REPRODUCTION_COST }

/-- `CivilizationAgent.create_offspring`: build the child record and append its
id to the parent's children list.  The fresh uuid for the child and the
oracle-produced prompt are parameters (both are generated outside the engine).
Returns the child together with the updated parent. -/
def create_offspring (parent : CivilizationAgent) (child_id : String)
    (child_prompt : String) : CivilizationAgent × CivilizationAgent :=
  let child : CivilizationAgent :=
    { id := child_id
      system_prompt := child_prompt
      wealth := CHILD_STARTING_WEALTH
      parent_id := some parent.id
      dynasty_id := parent.dynasty_id
      generation := parent.generation + 1 }
  (child, { parent with children_ids := parent.children_ids ++ [child_id] })

/-- Failure modes of `reproduce` (`reproduction.py`): the explicit
`ValueError` raised for an ineligible parent, and any exception escaping the
oracle call in `_generate_offspring_prompt`. -/
inductive ReproError where
  | ineligibleParent
  | oracleFailure
deriving DecidableEq, Repr

/-- `reproduce` (`reproduction.py`): check eligibility, obtain the offspring
prompt from the oracle (`none` models an oracle failure; the call happens
before any mutation), pay the reproduction cost, create the offspring.
The second component is the parent's state after the call (unchanged on every
failure path, since the source raises before mutating). -/
def reproduce (parent : CivilizationAgent) (oracle_prompt : Option String)
    (child_id : String) : Except ReproError CivilizationAgent × CivilizationAgent :=
  if ¬ can_reproduce parent then (.error .ineligibleParent, parent)
  else
    match oracle_prompt with
    | none => (.error .oracleFailure, parent)
    | some child_prompt =>
        let parent₁ := pay_reproduction_cost parent
        let (child, parent₂) := create_offspring parent₁ child_id child_prompt
        (.ok child, parent₂)

/-- Embedding of the dataclass `ExtinctionRecord` (`death.py`).  The
`timestamp` field (wall-clock `datetime.now()`) is outside the model. -/
structure ExtinctionRecord where
  agent_id : String
  dynasty_id : String
  generation : ℕ
  age_at_death : ℕ
  final_wealth : ℚ
  cause : String
  specialization : String
deriving DecidableEq, Repr

/-- `log_extinction` (`death.py`): build the record appended to the ledger. -/
def log_extinction (a : CivilizationAgent) (generation : ℕ)
    (cause : String) : ExtinctionRecord :=
  { agent_id := a.id
    dynasty_id := a.dynasty_id.getD "unknown"
    generation := generation
    age_at_death := a.age
    final_wealth := a.wealth
    cause := cause
    specialization := a.best_task_type.getD "generalist" }

/-- `process_deaths` (`death.py`): iterate over the population, keeping alive
agents as survivors and logging one bankruptcy extinction per dead agent.
The module-level `_extinction_log` list is threaded explicitly as `ledger`. -/
def process_deaths (agents : List CivilizationAgent) (generation : ℕ)
    (ledger : List ExtinctionRecord) :
    List CivilizationAgent × List CivilizationAgent × List ExtinctionRecord :=
  match agents with
  | [] => ([], [], ledger)
  | a :: rest =>
      if is_alive a then
        let (s, d, l) := process_deaths rest generation ledger
        (a :: s, d, l)
      else
        let (s, d, l) :=
          process_deaths rest generation (ledger ++ [log_extinction a generation "bankruptcy"])
        (s, a :: d, l)

/-! String machinery used by the rule engine: Python's `str.lower`, substring
containment (`in`), and the three `re.search` patterns of `governance.py`
(`(\d+)%`, `wealth\s*>\s*(\d+)`, `minimum\s*(?:of\s*)?(\d+)`), implemented as
leftmost-match scanners over the character list (the effect texts are ASCII,
where Python and Lean lower-casing and `\s` agree). -/

/-- Lower-case every character (Python `str.lower` on ASCII text). -/
def toLower (l : List Char) : List Char :=
  l.map Char.toLower

/-- Python `\s` on ASCII: space, tab, newline, carriage return, vertical tab,
form feed. -/
def isSpace (c : Char) : Bool :=
  c = ' ' || c = '\t' || c = '\n' || c = '\r' || c = '\x0b' || c = '\x0c'

/-- Decide whether `needle` is a prefix of `hay`. -/
def startsWith : List Char → List Char → Bool
  | [], _ => true
  | _ :: _, [] => false
  | a :: as, b :: bs => a == b && startsWith as bs

/-- Python's `needle in hay` substring test. -/
def containsSub (needle : List Char) : List Char → Bool
  | [] => needle.isEmpty
  | hay@(_ :: t) => startsWith needle hay || containsSub needle t

/-- Numeric value of a digit string (the `int(...)` applied to a `(\d+)`
capture group). -/
def digitsToNat (l : List Char) : ℕ :=
  l.foldl (fun acc c => acc * 10 + (c.toNat - 48)) 0

/-- Match `(\d+)%` anchored at the head of the list: a maximal non-empty digit
run immediately followed by `%`. -/
def matchPercentAt (l : List Char) : Option ℕ :=
  let ds := l.takeWhile Char.isDigit
  if ds.isEmpty then none
  else
    match l.dropWhile Char.isDigit with
    | '%' :: _ => some (digitsToNat ds)
    | _ => none

/-- `re.search(r'(\d+)%', effect)`: leftmost match. -/
def findPercent : List Char → Option ℕ
  | [] => none
  | l@(_ :: t) =>
      match matchPercentAt l with
      | some n => some n
      | none => findPercent t

/-- Match `wealth\s*>\s*(\d+)` anchored at the head of the list. -/
def matchThresholdAt (l : List Char) : Option ℕ :=
  if startsWith "wealth".data l then
    match (l.drop 6).dropWhile isSpace with
    | '>' :: rest =>
        let ds := (rest.dropWhile isSpace).takeWhile Char.isDigit
        if ds.isEmpty then none else some (digitsToNat ds)
    | _ => none
  else none

/-- `re.search(r'wealth\s*>\s*(\d+)', effect)`: leftmost match. -/
def findThreshold : List Char → Option ℕ
  | [] => none
  | l@(_ :: t) =>
      match matchThresholdAt l with
      | some n => some n
      | none => findThreshold t

/-- Match `minimum\s*(?:of\s*)?(\d+)` anchored at the head of the list.  The
optional `of\s*` group is tried greedily and dropped again (regex
backtracking) when no digits follow it. -/
def matchMinimumAt (l : List Char) : Option ℕ :=
  if startsWith "minimum".data l then
    let q := (l.drop 7).dropWhile isSpace
    let direct :=
      let ds := q.takeWhile Char.isDigit
      if ds.isEmpty then none else some (digitsToNat ds)
    if startsWith "of".data q then
      let ds := ((q.drop 2).dropWhile isSpace).takeWhile Char.isDigit
      if ds.isEmpty then direct else some (digitsToNat ds)
    else direct
  else none

/-- `re.search(r'minimum\s*(?:of\s*)?(\d+)', effect)`: leftmost match. -/
def findMinimum : List Char → Option ℕ
  | [] => none
  | l@(_ :: t) =>
      match matchMinimumAt l with
      | some n => some n
      | none => findMinimum t

/-! The rule engine (`governance.py`). -/

/-- Enumeration `RuleCategory` (`governance.py`), seven categories. -/
inductive RuleCategory where
  | taxation
  | meritocracy
  | welfare
  | oligarchy
  | reproduction
  | competition
  | other
deriving DecidableEq, Repr

/-- The fixed category enumeration, in declaration order (`len(RuleCategory)`
is 7). -/
def allCategories : List RuleCategory :=
  [.taxation, .meritocracy, .welfare, .oligarchy, .reproduction, .competition, .other]

/-- Enumeration `VotingSystem` (`governance.py`). -/
inductive VotingSystem where
  | equal
  | wealth_weighted
  | stake_weighted
deriving DecidableEq, Repr

/-- Embedding of the dataclass `Rule` (`governance.py`). -/
structure Rule where
  id : String
  proposer_id : String
  description : String
  effect : String
  category : RuleCategory
  generation_proposed : ℕ
  votes_for : ℤ := 0
  votes_against : ℤ := 0
  passed : Bool := false
  generation_enacted : Option ℕ := none
deriving DecidableEq, Repr

/-- Python `int(x)` on a rational: truncation toward zero. -/
def ratTrunc (q : ℚ) : ℤ :=
  q.num / (q.den : ℤ)

/-- `run_voting` (`governance.py`): tally one boolean vote per agent under the
chosen weighting scheme and mark the rule.  The oracle-sourced votes are the
function `vote` (agent ids are assumed distinct, as in the source's id-keyed
dict).  The source divides by the total weight with no zero guard, so a zero
total weight raises `ZeroDivisionError`; that exception is modelled as
`none`. -/
def run_voting (agents : List CivilizationAgent) (vote : CivilizationAgent → Bool)
    (voting_system : VotingSystem) (threshold : ℚ) (rule : Rule) :
    Option (Bool × Rule) :=
  match voting_system with
  | .equal =>
      let yes_votes : ℕ := (agents.filter vote).length
      let total_votes : ℕ := agents.length
      if total_votes = 0 then none
      else
        let passed := decide (threshold ≤ (yes_votes : ℚ) / (total_votes : ℚ))
        some (passed, { rule with
          votes_for := (yes_votes : ℤ)
          votes_against := (total_votes : ℤ) - (yes_votes : ℤ)
          passed := passed })
  | .wealth_weighted =>
      let yes_weight : ℚ := ((agents.filter vote).map (·.wealth)).sum
      let total_weight : ℚ := (agents.map (·.wealth)).sum
      if total_weight = 0 then none
      else
        let passed := decide (threshold ≤ yes_weight / total_weight)
        some (passed, { rule with
          votes_for := ratTrunc yes_weight
          votes_against := ratTrunc (total_weight - yes_weight)
          passed := passed })
  | .stake_weighted =>
      let yes_weight : ℚ := ((agents.filter vote).map (fun a => a.wealth ^ 2)).sum
      let total_weight : ℚ := (agents.map (fun a => a.wealth ^ 2)).sum
      if total_weight = 0 then none
      else
        let passed := decide (threshold ≤ yes_weight / total_weight)
        some (passed, { rule with
          votes_for := ratTrunc yes_weight
          votes_against := ratTrunc (total_weight - yes_weight)
          passed := passed })

/-- Tax-rate extraction of `_apply_taxation` (`governance.py`):
`int(rate_match.group(1)) / 100 if rate_match else 0.1`. -/
def taxRateOf (eff : List Char) : ℚ :=
  match findPercent eff with
  | some r => (r : ℚ) / 100
  | none => 1 / 10

/-- Wealth threshold extraction of `_apply_taxation`:
`int(threshold_match.group(1)) if threshold_match else 0`. -/
def taxThresholdOf (eff : List Char) : ℚ :=
  match findThreshold eff with
  | some t => (t : ℚ)
  | none => 0

/-- Minimum-wealth extraction of `_apply_welfare`:
`int(min_match.group(1)) if min_match else 20`. -/
def minWealthOf (eff : List Char) : ℚ :=
  match findMinimum eff with
  | some m => (m : ℚ)
  | none => 20

/-- `_apply_taxation` (`governance.py`): parse rate (default 10%) and wealth
threshold (default 0) from the lower-cased effect text; agents strictly above
the threshold pay `wealth × rate` into a pool; if anything was collected the
pool is split equally over all agents. -/
def apply_taxation (effect : String) (agents : List CivilizationAgent) :
    List CivilizationAgent :=
  let eff := toLower effect.data
  let tax_rate : ℚ := taxRateOf eff
  let wealth_threshold : ℚ := taxThresholdOf eff
  let taxed := agents.map (fun a =>
    if wealth_threshold < a.wealth then
      { a with wealth := a.wealth - a.wealth * tax_rate }
    else a)
  let total_tax : ℚ :=
    (agents.map (fun a =>
      if wealth_threshold < a.wealth then a.wealth * tax_rate else 0)).sum
  if 0 < total_tax then
    taxed.map (fun a => { a with wealth := a.wealth + total_tax / (agents.length : ℚ) })
  else taxed

/-- Contribution step of `_apply_welfare`: an agent strictly above twice the
floor pays `min(contribution_per, wealth * 0.1)`. -/
def welfareContrib (min_wealth contribution_per : ℚ) (a : CivilizationAgent) :
    CivilizationAgent :=
  if min_wealth * 2 < a.wealth then
    { a with wealth := a.wealth - min contribution_per (a.wealth * (1 / 10)) }
  else a

/-- Raise step of `_apply_welfare`: an agent below the floor is set exactly to
the floor. -/
def welfareRaise (min_wealth : ℚ) (a : CivilizationAgent) : CivilizationAgent :=
  if a.wealth < min_wealth then { a with wealth := min_wealth } else a

/-- `_apply_welfare` (`governance.py`): parse the minimum wealth floor
(default 20); when some agent is short, agents strictly above twice the floor
each contribute `min(total_needed / #wealthy, wealth × 0.1)`, then every agent
still below the floor is raised exactly to it. -/
def apply_welfare (effect : String) (agents : List CivilizationAgent) :
    List CivilizationAgent :=
  let eff := toLower effect.data
  let min_wealth : ℚ := minWealthOf eff
  let total_needed : ℚ := (agents.map (fun a => max 0 (min_wealth - a.wealth))).sum
  if 0 < total_needed then
    let n_wealthy := (agents.filter (fun a => min_wealth * 2 < a.wealth)).length
    let contributed :=
      if n_wealthy = 0 then agents
      else agents.map (welfareContrib min_wealth (total_needed / (n_wealthy : ℚ)))
    contributed.map (welfareRaise min_wealth)
  else agents

/-- `apply_rule` (`governance.py`): a failed rule is returned untouched with
the population unchanged; a passed rule is stamped with the enactment
generation and dispatched by keyword presence in the lower-cased effect text
("tax"/"pay" → taxation, "minimum"/"welfare" → welfare; the
"double"+"vote" and "reproduce"/"offspring" branches are explicit no-ops
handled by other components). -/
def apply_rule (rule : Rule) (agents : List CivilizationAgent) (generation : ℕ) :
    Rule × List CivilizationAgent :=
  if !rule.passed then (rule, agents)
  else
    let rule' := { rule with generation_enacted := some generation }
    let eff := toLower rule.effect.data
    let agents₁ :=
      if containsSub "tax".data eff || containsSub "pay".data eff then
        apply_taxation rule.effect agents
      else agents
    let agents₂ :=
      if containsSub "minimum".data eff || containsSub "welfare".data eff then
        apply_welfare rule.effect agents₁
      else agents₁
    (rule', agents₂)

/-! Reproduction phase (`reproduction.py`). -/

/-- `get_reproducible_agents`: the agents that can currently reproduce. -/
def get_reproducible_agents (agents : List CivilizationAgent) :
    List CivilizationAgent :=
  agents.filter can_reproduce

/-- Python's stable `sorted(reproducible, key=lambda a: -a.wealth)`:
descending by wealth, ties in original order. -/
def sortByWealthDesc (l : List CivilizationAgent) : List CivilizationAgent :=
  l.mergeSort (fun a b => b.wealth ≤ a.wealth)

/-- Loop body of `reproduction_phase`: append the child on success, swallow
the per-agent failure otherwise (the `try/except` of the source). -/
def collectStep {α β ε : Type} (f : α → Except ε β) (acc : List β) (a : α) :
    List β :=
  match f a with
  | .ok b => acc ++ [b]
  | .error _ => acc

/-- `reproduction_phase` (`reproduction.py`): restrict to eligible agents;
`if max_offspring_per_gen:` is Python truthiness, so both `None` and `0` skip
the cap and a positive cap keeps the wealthiest `m` candidates; then attempt
each reproduction in order, collecting successful children and swallowing
per-agent failures.  `oracle` gives each parent's offspring prompt (`none`
models an oracle failure) and `ids` the child uuid. -/
def reproduction_phase (agents : List CivilizationAgent)
    (oracle : CivilizationAgent → Option String) (ids : CivilizationAgent → String)
    (max_offspring_per_gen : Option ℕ) : List CivilizationAgent :=
  let reproducible := get_reproducible_agents agents
  let selected :=
    match max_offspring_per_gen with
    | none => reproducible
    | some m => if m = 0 then reproducible else (sortByWealthDesc reproducible).take m
  selected.foldl
    (collectStep fun parent => (reproduce parent (oracle parent) (ids parent)).1) []

/-! Society metrics (`society_metrics.py`). -/

/-- `Counter(categories).values()` of `compute_governance_entropy`: the
per-category counts of the passed rules, with the zero entries dropped
(a `Counter` only holds the categories that occur). -/
def categoryCounts (passed_rules : List Rule) : List ℕ :=
  (allCategories.map (fun c =>
    (passed_rules.filter (fun r => r.category = c)).length)).filter (· ≠ 0)

/-- The `-sum(p * log(p + 1e-10))` entropy of the probabilities derived from
the category counts (`probs` and `entropy` in the source). -/
noncomputable def entropyOfCounts (counts : List ℕ) : ℝ :=
  let total : ℕ := counts.sum
  let probs : List ℝ := counts.map (fun (c : ℕ) => (c : ℝ) / (total : ℝ))
  let entropy : ℝ := -(probs.map (fun p => p * Real.log (p + 1e-10))).sum
  entropy

/-- `compute_governance_entropy` (`society_metrics.py`): Shannon entropy of
the category distribution of passed rules (natural log, with the source's
`1e-10` smoothing term inside the log), normalized by `log 7`
(`len(RuleCategory)`); `0.0` when no rule passed. -/
noncomputable def compute_governance_entropy (rules : List Rule) : ℝ :=
  let passed_rules := rules.filter (·.passed)
  if passed_rules.isEmpty then 0
  else entropyOfCounts (categoryCounts passed_rules) / Real.log 7

/-! Concrete fixtures for witnesses and counterexamples. -/

/-- An agent fixture with the given wealth. -/
def agentOfWealth (w : ℚ) : CivilizationAgent :=
  { id := "a1", wealth := w }

/-- A rule fixture with the given category and vote outcome; its effect text
("Unknown effect", the parser's placeholder) matches no dispatch keyword and
no rate/threshold/minimum pattern. -/
def mkRule (c : RuleCategory) (p : Bool) : Rule :=
  { id := "r1", proposer_id := "a1", description := "Unknown rule",
    effect := "Unknown effect", category := c, generation_proposed := 0,
    passed := p }

/-- Seven passed rules, one per category: an even category spread. -/
def sevenRules : List Rule :=
  allCategories.map (fun c => mkRule c true)

/-! Claim theorems. -/

/-- C1: the spec requires that a zero total vote weight (empty population
under the equal scheme, all-zero wealth under the weighted schemes) must not
raise and must mark the rule as failed.  The source `run_voting` divides by
the total weight with no guard, so each of these inputs raises
`ZeroDivisionError` (modelled as `none`) instead of returning a failed rule:
the code contradicts the spec at these inputs. -/
theorem run_voting_zero_total_weight_raises :
    run_voting [] (fun _ => true) VotingSystem.equal (1 / 2) (mkRule .taxation false)
      = none ∧
    run_voting [agentOfWealth 0, agentOfWealth 0] (fun _ => true)
      VotingSystem.wealth_weighted (1 / 2) (mkRule .taxation false) = none ∧
    run_voting [agentOfWealth 0, agentOfWealth 0] (fun _ => true)
      VotingSystem.stake_weighted (1 / 2) (mkRule .taxation false) = none := by
  refine ⟨rfl, ?_, ?_⟩ <;> norm_num [run_voting, agentOfWealth]

/-- C2: with no explicit percentage or threshold in the effect text, the
taxation transform uses rate 10% and threshold 0; on four agents with wealths
`[1000, 0, 0, 0]` the single payer contributes 100 and every agent receives a
quarter of the pool, giving exactly `[925, 25, 25, 25]`. -/
theorem taxation_defaults_example (effect : String)
    (h₁ : findPercent (toLower effect.data) = none)
    (h₂ : findThreshold (toLower effect.data) = none) :
    (apply_taxation effect
        [agentOfWealth 1000, agentOfWealth 0, agentOfWealth 0, agentOfWealth 0]).map
        (·.wealth) = [925, 25, 25, 25] := by
  simp only [apply_taxation, taxRateOf, taxThresholdOf, h₁, h₂]
  norm_num [agentOfWealth]

/-- C2 witness: the parser placeholder "Unknown effect" has no percentage and
no threshold pattern. -/
theorem taxation_defaults_example_witness :
    (apply_taxation "Unknown effect"
        [agentOfWealth 1000, agentOfWealth 0, agentOfWealth 0, agentOfWealth 0]).map
        (·.wealth) = [925, 25, 25, 25] :=
  taxation_defaults_example "Unknown effect" (by decide) (by decide)

/-- C4: a successful `reproduce` call on an eligible parent deducts exactly
`REPRODUCTION_COST = 200` from the parent, and the child has wealth
`CHILD_STARTING_WEALTH = 50`, parent id equal to the parent's id, the
parent's dynasty id (never its own id), generation one past the parent's,
with the child's id appended to the parent's children list. -/
theorem reproduce_success_spec (parent : CivilizationAgent)
    (prompt child_id : String) (h : REPRODUCTION_COST ≤ parent.wealth) :
    ∃ child parent', reproduce parent (some prompt) child_id = (.ok child, parent') ∧
      parent'.wealth = parent.wealth - 200 ∧
      child.wealth = 50 ∧
      child.parent_id = some parent.id ∧
      child.dynasty_id = parent.dynasty_id ∧
      child.generation = parent.generation + 1 ∧
      parent'.children_ids = parent.children_ids ++ [child_id] := by
  have hc : can_reproduce parent = true := by
    simp [can_reproduce, h]
  refine ⟨{ id := child_id, system_prompt := prompt,
            generation := parent.generation + 1, best_task_type := none,
            wealth := CHILD_STARTING_WEALTH, age := 0,
            parent_id := some parent.id, children_ids := [],
            dynasty_id := parent.dynasty_id },
          { parent with wealth := parent.wealth - REPRODUCTION_COST,
                        children_ids := parent.children_ids ++ [child_id] },
          ?_, ?_, ?_, rfl, rfl, rfl, rfl⟩
  · simp [reproduce, hc, create_offspring, pay_reproduction_cost]
  · simp [REPRODUCTION_COST]
  · simp [CHILD_STARTING_WEALTH]

/-- C4 witness: a parent with wealth exactly 200 ends at wealth 0 and the
child carries the expected lineage fields. -/
theorem reproduce_success_spec_witness :
    ∃ child parent',
      reproduce (agentOfWealth 200) (some "child role") "c1" = (.ok child, parent') ∧
      parent'.wealth = (agentOfWealth 200).wealth - 200 ∧
      child.wealth = 50 ∧
      child.parent_id = some (agentOfWealth 200).id ∧
      child.dynasty_id = (agentOfWealth 200).dynasty_id ∧
      child.generation = (agentOfWealth 200).generation + 1 ∧
      parent'.children_ids = (agentOfWealth 200).children_ids ++ ["c1"] :=
  reproduce_success_spec (agentOfWealth 200) "child role" "c1" (by decide)

/-- C5: `reproduce` fails with the ineligibility error exactly when the
parent's wealth is strictly below `REPRODUCTION_COST = 200`, and every failed
call (ineligibility or oracle failure) leaves the parent in its exact
pre-operation state. -/
theorem reproduce_failure_spec (parent : CivilizationAgent)
    (oracle_prompt : Option String) (child_id : String) :
    ((reproduce parent oracle_prompt child_id).1 = .error .ineligibleParent ↔
       parent.wealth < REPRODUCTION_COST) ∧
    (∀ e, (reproduce parent oracle_prompt child_id).1 = .error e →
       (reproduce parent oracle_prompt child_id).2 = parent) := by
  rcases lt_or_le parent.wealth REPRODUCTION_COST with hlt | hge
  · have hc : can_reproduce parent = false := by
      simp [can_reproduce, not_le.mpr hlt]
    simp [reproduce, hc, hlt]
  · have hc : can_reproduce parent = true := by
      simp [can_reproduce, hge]
    cases oracle_prompt with
    | none => simp [reproduce, hc, not_lt.mpr hge]
    | some prompt => simp [reproduce, hc, not_lt.mpr hge, create_offspring]

/-- C5 witness: an ineligible parent (wealth 100) fails with the
ineligibility error and is returned unchanged. -/
theorem reproduce_failure_spec_witness :
    (reproduce (agentOfWealth 100) (some "child role") "c1").2 = agentOfWealth 100 :=
  (reproduce_failure_spec (agentOfWealth 100) (some "child role") "c1").2
    .ineligibleParent (by norm_num [reproduce, can_reproduce, agentOfWealth, REPRODUCTION_COST])

/-- C9: `apply_rule` on a failed rule returns rule and population untouched
(in particular `generation_enacted` stays unset); on a passed rule whose
lower-cased effect text contains none of the dispatch keywords, the
population is returned untouched while `generation_enacted` is stamped with
the given generation — a passed-but-mechanically-inert rule, not an error. -/
theorem apply_rule_dispatch_spec (rule : Rule) (agents : List CivilizationAgent)
    (generation : ℕ) :
    (rule.passed = false → apply_rule rule agents generation = (rule, agents)) ∧
    (rule.passed = true →
      containsSub "tax".data (toLower rule.effect.data) = false →
      containsSub "pay".data (toLower rule.effect.data) = false →
      containsSub "minimum".data (toLower rule.effect.data) = false →
      containsSub "welfare".data (toLower rule.effect.data) = false →
      (containsSub "double".data (toLower rule.effect.data) &&
        containsSub "vote".data (toLower rule.effect.data)) = false →
      containsSub "reproduce".data (toLower rule.effect.data) = false →
      containsSub "offspring".data (toLower rule.effect.data) = false →
      apply_rule rule agents generation =
        ({ rule with generation_enacted := some generation }, agents)) := by
  constructor
  · intro hp
    simp [apply_rule, hp]
  · intro hp htax hpay hmin hwel _ _ _
    simp [apply_rule, hp, htax, hpay, hmin, hwel]

/-- C9 witness: a failed rule and a passed rule with the keyword-free effect
text "Unknown effect", applied to a one-agent population at generation 3. -/
theorem apply_rule_dispatch_spec_witness :
    apply_rule (mkRule .other false) [agentOfWealth 5] 3
      = (mkRule .other false, [agentOfWealth 5]) ∧
    apply_rule (mkRule .other true) [agentOfWealth 5] 3
      = ({ mkRule .other true with generation_enacted := some 3 }, [agentOfWealth 5]) :=
  ⟨(apply_rule_dispatch_spec (mkRule .other false) [agentOfWealth 5] 3).1 rfl,
   (apply_rule_dispatch_spec (mkRule .other true) [agentOfWealth 5] 3).2 rfl
     (by decide) (by decide) (by decide) (by decide) (by decide) (by decide) (by decide)⟩

/-! Partition lemmas for the mortality sweep. -/

/-- Unfolding of `process_deaths` as an order-preserving filter partition with
the bankruptcy records appended to the ledger in population order. -/
theorem process_deaths_eq (agents : List CivilizationAgent) (generation : ℕ)
    (ledger : List ExtinctionRecord) :
    process_deaths agents generation ledger =
      (agents.filter is_alive,
       agents.filter (fun a => !is_alive a),
       ledger ++ (agents.filter (fun a => !is_alive a)).map
         (fun a => log_extinction a generation "bankruptcy")) := by
  induction agents generalizing ledger with
  | nil => simp [process_deaths]
  | cons a t ih =>
      cases ha : is_alive a with
      | true => simp [process_deaths, ha, ih]
      | false => simp [process_deaths, ha, ih]

/-- Occurrence counts split across a boolean filter partition. -/
theorem count_filter_partition {α : Type} [DecidableEq α] (p : α → Bool)
    (l : List α) (a : α) :
    (l.filter p).count a + (l.filter (fun x => !p x)).count a = l.count a := by
  induction l with
  | nil => simp
  | cons b t ih =>
      cases hb : p b with
      | true =>
          rw [List.filter_cons_of_pos (by simp [hb]),
              List.filter_cons_of_neg (by simp [hb])]
          rcases eq_or_ne a b with rfl | hab
          · rw [List.count_cons_self, List.count_cons_self]
            omega
          · rw [List.count_cons_of_ne hab, List.count_cons_of_ne hab]
            exact ih
      | false =>
          rw [List.filter_cons_of_neg (by simp [hb]),
              List.filter_cons_of_pos (by simp [hb])]
          rcases eq_or_ne a b with rfl | hab
          · rw [List.count_cons_self, List.count_cons_self]
            omega
          · rw [List.count_cons_of_ne hab, List.count_cons_of_ne hab]
            exact ih

/-- C3: the mortality sweep partitions its input by the predicate
`wealth > 0`, preserving input order in both partitions, with every agent
occurring in exactly one partition (occurrence counts add up), and appends to
the ledger exactly one bankruptcy `ExtinctionRecord` per deceased agent, in
order. -/
theorem process_deaths_partition_spec (agents : List CivilizationAgent)
    (generation : ℕ) (ledger : List ExtinctionRecord) :
    process_deaths agents generation ledger =
      (agents.filter is_alive,
       agents.filter (fun a => !is_alive a),
       ledger ++ (agents.filter (fun a => !is_alive a)).map
         (fun a => log_extinction a generation "bankruptcy")) ∧
    (∀ a : CivilizationAgent,
       (agents.filter is_alive).count a
         + (agents.filter (fun a => !is_alive a)).count a = agents.count a) ∧
    (∀ a : CivilizationAgent, is_alive a = decide (0 < a.wealth)) ∧
    (∀ a : CivilizationAgent,
       (log_extinction a generation "bankruptcy").cause = "bankruptcy") :=
  ⟨process_deaths_eq agents generation ledger,
   fun a => count_filter_partition is_alive agents a,
   fun _ => rfl,
   fun _ => rfl⟩

/-! Arithmetic lemmas for the taxation transform. -/

/-- The tax rate extracted from any effect text is non-negative. -/
theorem taxRateOf_nonneg (eff : List Char) : 0 ≤ taxRateOf eff := by
  unfold taxRateOf
  cases findPercent eff with
  | none => norm_num
  | some r => positivity

/-- The wealth threshold extracted from any effect text is non-negative. -/
theorem taxThresholdOf_nonneg (eff : List Char) : 0 ≤ taxThresholdOf eff := by
  unfold taxThresholdOf
  cases findThreshold eff with
  | none => norm_num
  | some t => positivity

/-- Wealth sum after the collection pass of taxation: the original total
minus the collected pool. -/
theorem sum_wealth_collect (thr rate : ℚ) (l : List CivilizationAgent) :
    ((l.map (fun a => if thr < a.wealth then
        { a with wealth := a.wealth - a.wealth * rate } else a)).map (·.wealth)).sum
      = (l.map (·.wealth)).sum
        - (l.map (fun a => if thr < a.wealth then a.wealth * rate else 0)).sum := by
  induction l with
  | nil => simp
  | cons a t ih =>
      by_cases h : thr < a.wealth
      · simp only [List.map_cons, List.sum_cons, if_pos h, ih]
        ring
      · simp only [List.map_cons, List.sum_cons, if_neg h, ih]
        ring

/-- Wealth sum after adding a fixed share to every agent. -/
theorem sum_wealth_add_share (s : ℚ) (l : List CivilizationAgent) :
    ((l.map (fun a => { a with wealth := a.wealth + s })).map (·.wealth)).sum
      = (l.map (·.wealth)).sum + l.length * s := by
  induction l with
  | nil => simp
  | cons a t ih =>
      simp only [List.map_cons, List.sum_cons, ih, List.length_cons]
      push_cast
      ring

/-- C10: the taxation transform conserves total wealth exactly, for every
population and every effect text, over exact rational arithmetic: the pool
that payers contribute is redistributed in full (and when nothing is
collected nothing moves). -/
theorem taxation_conserves_total_wealth (effect : String)
    (agents : List CivilizationAgent) :
    ((apply_taxation effect agents).map (·.wealth)).sum
      = (agents.map (·.wealth)).sum := by
  have hr : 0 ≤ taxRateOf (toLower effect.data) := taxRateOf_nonneg _
  have ht : 0 ≤ taxThresholdOf (toLower effect.data) := taxThresholdOf_nonneg _
  simp only [apply_taxation]
  set eff := toLower effect.data
  set rate := taxRateOf eff with hrate
  set thr := taxThresholdOf eff with hthr
  set T : ℚ :=
    (agents.map (fun a => if thr < a.wealth then a.wealth * rate else 0)).sum with hT
  have hTnn : 0 ≤ T := by
    rw [hT]
    apply List.sum_nonneg
    intro x hx
    simp only [List.mem_map] at hx
    obtain ⟨a, -, rfl⟩ := hx
    by_cases h : thr < a.wealth
    · simpa [h] using mul_nonneg (le_trans ht h.le) hr
    · simp [h]
  by_cases hpos : 0 < T
  · have hne : agents ≠ [] := by
      rintro rfl
      rw [hT] at hpos
      simp at hpos
    have hn : ((agents.length : ℚ)) ≠ 0 :=
      Nat.cast_ne_zero.mpr fun h => hne (List.length_eq_zero.mp h)
    rw [if_pos hpos, sum_wealth_add_share, sum_wealth_collect, List.length_map,
      mul_comm ((agents.length : ℚ)), div_mul_cancel₀ _ hn, ← hT]
    ring
  · have hT0 : T = 0 := le_antisymm (not_lt.mp hpos) hTnn
    rw [if_neg hpos, sum_wealth_collect, ← hT, hT0, sub_zero]

/-! The capped reproduction phase. -/

/-- The child-collecting loop of `reproduction_phase` is the `filterMap` of
the successful attempts. -/
theorem foldl_collect_eq_filterMap {α β ε : Type} (f : α → Except ε β)
    (l : List α) (acc : List β) :
    l.foldl (collectStep f) acc = acc ++ l.filterMap (fun a => (f a).toOption) := by
  induction l generalizing acc with
  | nil => simp
  | cons a t ih =>
      cases h : f a with
      | ok b => simp [collectStep, h, ih, List.filterMap_cons, Except.toOption]
      | error e => simp [collectStep, h, ih, List.filterMap_cons, Except.toOption]

/-- C6 (amended): for every population and every positive supplied cap `m`,
the reproduction phase is exactly the successful attempts of the
top-`m`-by-descending-wealth eligible agents (each per-agent failure is
swallowed, leaving the other attempts intact), and it produces at most `m`
offspring.  (For the supplied cap 0 the source's Python truthiness test skips
the cap, see the counterexample.) -/
theorem reproduction_phase_cap_spec (agents : List CivilizationAgent)
    (oracle : CivilizationAgent → Option String) (ids : CivilizationAgent → String)
    (m : ℕ) (hm : 0 < m) :
    reproduction_phase agents oracle ids (some m)
      = ((sortByWealthDesc (get_reproducible_agents agents)).take m).filterMap
          (fun p => ((reproduce p (oracle p) (ids p)).1).toOption) ∧
    (reproduction_phase agents oracle ids (some m)).length ≤ m := by
  have hm0 : m ≠ 0 := hm.ne'
  have heq : reproduction_phase agents oracle ids (some m)
      = ((sortByWealthDesc (get_reproducible_agents agents)).take m).filterMap
          (fun p => ((reproduce p (oracle p) (ids p)).1).toOption) := by
    simp only [reproduction_phase]
    rw [if_neg hm0]
    simpa using foldl_collect_eq_filterMap
      (fun parent => (reproduce parent (oracle parent) (ids parent)).1)
      ((sortByWealthDesc (get_reproducible_agents agents)).take m) []
  refine ⟨heq, ?_⟩
  rw [heq]
  exact le_trans (List.length_filterMap_le _ _) (List.length_take_le _ _)

/-- C6 witness: one eligible agent under cap 1 yields exactly the successful
attempts of the top-1 selection, and at most one child. -/
theorem reproduction_phase_cap_spec_witness :
    reproduction_phase [agentOfWealth 250] (fun _ => some "c") (fun _ => "c1") (some 1)
      = ((sortByWealthDesc (get_reproducible_agents [agentOfWealth 250])).take 1).filterMap
          (fun p => ((reproduce p ((fun _ => some "c") p) ((fun _ => "c1") p)).1).toOption) ∧
    (reproduction_phase [agentOfWealth 250] (fun _ => some "c") (fun _ => "c1")
        (some 1)).length ≤ 1 :=
  reproduction_phase_cap_spec [agentOfWealth 250] (fun _ => some "c") (fun _ => "c1") 1
    (by decide)

/-- C6 counterexample: the claim also asserts the bound for a supplied cap of
0, but the source tests the cap with Python truthiness (`if
max_offspring_per_gen:`), so 0 disables the cap: a single eligible agent
still produces one offspring, violating "at most 0". -/
theorem reproduction_phase_cap_zero_cex :
    (reproduction_phase [agentOfWealth 250] (fun _ => some "c") (fun _ => "c1")
        (some 0)).length = 1 ∧
    ¬ (reproduction_phase [agentOfWealth 250] (fun _ => some "c") (fun _ => "c1")
        (some 0)).length ≤ 0 := by
  have h : (reproduction_phase [agentOfWealth 250] (fun _ => some "c") (fun _ => "c1")
      (some 0)).length = 1 := by
    norm_num [reproduction_phase, get_reproducible_agents, reproduce, can_reproduce,
      agentOfWealth, REPRODUCTION_COST, pay_reproduction_cost, create_offspring,
      collectStep]
  exact ⟨h, by simp [h]⟩

/-! Lemmas for the welfare transform. -/

/-- With at least one agent strictly below wealth 20, the welfare shortfall is
strictly positive. -/
theorem total_needed_pos (agents : List CivilizationAgent)
    (hex : ∃ a ∈ agents, a.wealth < 20) :
    0 < (agents.map (fun a => max 0 ((20 : ℚ) - a.wealth))).sum := by
  obtain ⟨a, ha, hwa⟩ := hex
  have hmem : max 0 ((20 : ℚ) - a.wealth)
      ∈ agents.map (fun a => max 0 ((20 : ℚ) - a.wealth)) :=
    List.mem_map_of_mem _ ha
  have hnn : ∀ x ∈ agents.map (fun a => max 0 ((20 : ℚ) - a.wealth)), 0 ≤ x := by
    intro x hx
    simp only [List.mem_map] at hx
    obtain ⟨b, -, rfl⟩ := hx
    exact le_max_left _ _
  exact lt_of_lt_of_le (lt_max_of_lt_right (by linarith))
    (List.single_le_sum hnn _ hmem)

/-- Case analysis of one agent's trip through contribution then raise, at
floor 20 with a positive per-contributor charge. -/
theorem welfareF_cases (per : ℚ) (hper : 0 < per) (a : CivilizationAgent) :
    (a.wealth < 20 → (welfareRaise 20 (welfareContrib 20 per a)).wealth = 20) ∧
    (20 ≤ a.wealth → a.wealth ≤ 40 →
       welfareRaise 20 (welfareContrib 20 per a) = a) ∧
    (40 < a.wealth →
       (welfareRaise 20 (welfareContrib 20 per a)).wealth
         = a.wealth - min per (a.wealth * (1 / 10)) ∧
       0 < min per (a.wealth * (1 / 10)) ∧
       min per (a.wealth * (1 / 10)) ≤ a.wealth * (1 / 10)) := by
  refine ⟨?_, ?_, ?_⟩
  · intro h
    have h2 : ¬ (20 : ℚ) * 2 < a.wealth := by linarith
    simp [welfareContrib, h2, welfareRaise, h]
  · intro h1 h2
    have h3 : ¬ (20 : ℚ) * 2 < a.wealth := by linarith
    have h4 : ¬ a.wealth < 20 := by linarith
    simp [welfareContrib, h3, welfareRaise, h4]
  · intro h
    have h2 : (20 : ℚ) * 2 < a.wealth := by linarith
    have hm : min per (a.wealth * (1 / 10)) ≤ a.wealth * (1 / 10) :=
      min_le_right _ _
    have hd : 0 < min per (a.wealth * (1 / 10)) := lt_min hper (by linarith)
    have h5 : ¬ a.wealth - min per (a.wealth * (1 / 10)) < 20 := by
      have := min_le_right per (a.wealth * (1 / 10))
      intro hcon
      linarith
    simp only [welfareContrib, if_pos h2, welfareRaise]
    rw [if_neg h5]
    exact ⟨rfl, hd, hm⟩

/-- Summing an indicator-style map: the constant times the number of agents
satisfying the predicate. -/
theorem sum_map_ite_const {α : Type} (p : α → Prop) [DecidablePred p] (c : ℚ)
    (l : List α) :
    (l.map (fun a => if p a then c else 0)).sum
      = c * ((l.filter (fun a => decide (p a))).length : ℚ) := by
  induction l with
  | nil => simp
  | cons a t ih =>
      by_cases h : p a
      · simp [List.filter_cons, h, ih]
        ring
      · simp [List.filter_cons, h, ih]

/-- Zipping a list with its own image under a map pairs each element with its
image. -/
theorem zip_self_map {α β : Type} (f : α → β) (l : List α) :
    l.zip (l.map f) = l.map (fun a => (a, f a)) := by
  induction l with
  | nil => rfl
  | cons a t ih => simp [ih]

/-- C8 (amended): with the floor defaulting to 20 and at least one agent
below the floor, pairing each input agent with its output: every agent below
the floor ends exactly at the floor; agents between the floor and twice the
floor are untouched; the contributors are exactly the agents strictly above
twice the floor, each losing a strictly positive amount of at most 10% of
their own wealth; and the total contribution is capped by the total
shortfall (it matches the shortfall only when no contributor's 10% cap
binds — see the counterexample). -/
theorem welfare_default_floor_spec (effect : String)
    (agents : List CivilizationAgent)
    (hmin : findMinimum (toLower effect.data) = none)
    (hex : ∃ a ∈ agents, a.wealth < 20) :
    (∀ p ∈ agents.zip (apply_welfare effect agents),
       (p.1.wealth < 20 → p.2.wealth = 20) ∧
       (20 ≤ p.1.wealth → p.1.wealth ≤ 40 → p.2 = p.1) ∧
       (40 < p.1.wealth →
          p.2.wealth < p.1.wealth ∧
          p.1.wealth - p.2.wealth ≤ p.1.wealth * (1 / 10))) ∧
    ((agents.zip (apply_welfare effect agents)).map
        (fun p => if 40 < p.1.wealth then p.1.wealth - p.2.wealth else 0)).sum
      ≤ (agents.map (fun a => max 0 (20 - a.wealth))).sum := by
  have hneed := total_needed_pos agents hex
  have h240 : (20 : ℚ) * 2 = 40 := by norm_num
  by_cases hw : (agents.filter (fun a => (40 : ℚ) < a.wealth)).length = 0
  · have hout : apply_welfare effect agents = agents.map (welfareRaise 20) := by
      simp only [apply_welfare, minWealthOf, hmin, h240]
      rw [if_pos hneed, if_pos hw]
    have hfe : agents.filter (fun a => (40 : ℚ) < a.wealth) = [] :=
      List.length_eq_zero.mp hw
    have hnall : ∀ a ∈ agents, ¬ (40 : ℚ) < a.wealth := by
      intro a ha hlt
      have hmemf : a ∈ agents.filter (fun a => (40 : ℚ) < a.wealth) :=
        List.mem_filter.mpr ⟨ha, by simpa using hlt⟩
      rw [hfe] at hmemf
      exact absurd hmemf (List.not_mem_nil a)
    constructor
    · intro p hp
      rw [hout, zip_self_map] at hp
      simp only [List.mem_map] at hp
      obtain ⟨a, ha, rfl⟩ := hp
      refine ⟨?_, ?_, ?_⟩
      · intro h
        simp [welfareRaise, h]
      · intro h1 h2
        simp [welfareRaise, not_lt.mpr h1]
      · intro h
        exact absurd h (hnall a ha)
    · rw [hout, zip_self_map, List.map_map]
      have hz : ∀ x ∈ agents.map ((fun p : CivilizationAgent × CivilizationAgent =>
          if (40 : ℚ) < p.1.wealth then p.1.wealth - p.2.wealth else 0)
            ∘ (fun a => (a, welfareRaise 20 a))), x = 0 := by
        intro x hx
        simp only [List.mem_map, Function.comp] at hx
        obtain ⟨a, ha, rfl⟩ := hx
        simp [hnall a ha]
      rw [List.sum_eq_zero hz]
      exact le_of_lt hneed
  · set per : ℚ := (agents.map (fun a => max 0 ((20 : ℚ) - a.wealth))).sum
      / ((agents.filter (fun a => (40 : ℚ) < a.wealth)).length : ℚ) with hperdef
    have hcast : (0 : ℚ)
        < ((agents.filter (fun a => (40 : ℚ) < a.wealth)).length : ℚ) := by
      exact_mod_cast Nat.pos_of_ne_zero hw
    have hper : 0 < per := div_pos hneed hcast
    have hout : apply_welfare effect agents
        = agents.map (fun a => welfareRaise 20 (welfareContrib 20 per a)) := by
      simp only [apply_welfare, minWealthOf, hmin, h240]
      rw [if_pos hneed, if_neg hw, List.map_map, ← hperdef]
      rfl
    constructor
    · intro p hp
      rw [hout, zip_self_map] at hp
      simp only [List.mem_map] at hp
      obtain ⟨a, ha, rfl⟩ := hp
      obtain ⟨c1, c2, c3⟩ := welfareF_cases per hper a
      refine ⟨fun h => c1 h, fun h1 h2 => by rw [c2 h1 h2], fun h => ?_⟩
      obtain ⟨he, hd, hm⟩ := c3 h
      constructor
      · rw [he]
        linarith
      · rw [he]
        linarith
    · rw [hout, zip_self_map, List.map_map]
      have hcongr : agents.map ((fun p : CivilizationAgent × CivilizationAgent =>
          if (40 : ℚ) < p.1.wealth then p.1.wealth - p.2.wealth else 0)
            ∘ (fun a => (a, welfareRaise 20 (welfareContrib 20 per a))))
          = agents.map (fun a =>
              if (40 : ℚ) < a.wealth then min per (a.wealth * (1 / 10)) else 0) := by
        apply List.map_congr_left
        intro a ha
        by_cases h : (40 : ℚ) < a.wealth
        · obtain ⟨he, -, -⟩ := (welfareF_cases per hper a).2.2 h
          simp only [Function.comp_apply, if_pos h, he]
          ring
        · simp [h]
      rw [hcongr]
      calc (agents.map (fun a =>
              if (40 : ℚ) < a.wealth then min per (a.wealth * (1 / 10)) else 0)).sum
          ≤ (agents.map (fun a => if (40 : ℚ) < a.wealth then per else 0)).sum := by
            apply List.sum_le_sum
            intro a ha
            by_cases h : (40 : ℚ) < a.wealth
            · simp [h, min_le_left]
            · simp [h]
        _ = per * ((agents.filter (fun a =>
              decide ((40 : ℚ) < a.wealth))).length : ℚ) :=
            sum_map_ite_const _ per agents
        _ = (agents.map (fun a => max 0 ((20 : ℚ) - a.wealth))).sum := by
            rw [hperdef, div_mul_cancel₀]
            exact ne_of_gt hcast

/-- C8 witness: the floor-default welfare transform on agents with wealths
`[0, 50]` (effect text "welfare for all", no explicit minimum). -/
theorem welfare_default_floor_spec_witness :
    (∀ p ∈ [agentOfWealth 0, agentOfWealth 50].zip
        (apply_welfare "welfare for all" [agentOfWealth 0, agentOfWealth 50]),
       (p.1.wealth < 20 → p.2.wealth = 20) ∧
       (20 ≤ p.1.wealth → p.1.wealth ≤ 40 → p.2 = p.1) ∧
       (40 < p.1.wealth →
          p.2.wealth < p.1.wealth ∧
          p.1.wealth - p.2.wealth ≤ p.1.wealth * (1 / 10))) ∧
    (([agentOfWealth 0, agentOfWealth 50].zip
        (apply_welfare "welfare for all" [agentOfWealth 0, agentOfWealth 50])).map
        (fun p => if 40 < p.1.wealth then p.1.wealth - p.2.wealth else 0)).sum
      ≤ ([agentOfWealth 0, agentOfWealth 50].map
          (fun a => max 0 (20 - a.wealth))).sum :=
  welfare_default_floor_spec "welfare for all"
    [agentOfWealth 0, agentOfWealth 50] (by decide)
    ⟨agentOfWealth 0, by simp, by norm_num [agentOfWealth]⟩

/-- C8 counterexample: the claim as stated asserts the total contribution
matches the total shortfall; with wealths `[0, 50]` and the default floor 20
the shortfall is 20 but the single contributor's 10% cap limits the
contribution to 5 (output wealths `[20, 45]`), so the match fails. -/
theorem welfare_contribution_shortfall_cex :
    (apply_welfare "welfare for all" [agentOfWealth 0, agentOfWealth 50]).map
        (·.wealth) = [20, 45] ∧
    (([agentOfWealth 0, agentOfWealth 50].zip
        (apply_welfare "welfare for all" [agentOfWealth 0, agentOfWealth 50])).map
        (fun p => if 40 < p.1.wealth then p.1.wealth - p.2.wealth else 0)).sum
      ≠ ([agentOfWealth 0, agentOfWealth 50].map
          (fun a => max 0 (20 - a.wealth))).sum := by
  have hmin : findMinimum (toLower "welfare for all".data) = none := by decide
  have h : apply_welfare "welfare for all" [agentOfWealth 0, agentOfWealth 50]
      = [{ agentOfWealth 0 with wealth := 20 },
         { agentOfWealth 50 with wealth := 45 }] := by
    norm_num [apply_welfare, minWealthOf, hmin, welfareContrib, welfareRaise,
      agentOfWealth]
  rw [h]
  constructor
  · norm_num [agentOfWealth]
  · norm_num [agentOfWealth]

/-! Lemmas for the governance-entropy metric. -/

/-- When every rule of a list has category `c`, the per-category filter counts
are concentrated on `c`. -/
theorem filter_category_length (l : List Rule) (c c' : RuleCategory)
    (h : ∀ r ∈ l, r.category = c) :
    (l.filter (fun r => r.category = c')).length
      = if c' = c then l.length else 0 := by
  induction l with
  | nil => simp
  | cons r t ih =>
      have hr : r.category = c := h r (List.mem_cons_self r t)
      have ht : ∀ x ∈ t, x.category = c := fun x hx => h x (List.mem_cons_of_mem r hx)
      have hih := ih ht
      by_cases hc : c' = c
      · subst hc
        have hkeep : List.filter (fun r => decide (r.category = c')) (r :: t)
            = r :: List.filter (fun r => decide (r.category = c')) t := by
          simp [List.filter_cons, hr]
        rw [hkeep, List.length_cons, hih]
        simp
      · have hc' : ¬ (c = c') := fun hh => hc hh.symm
        have hdrop : List.filter (fun r => decide (r.category = c')) (r :: t)
            = List.filter (fun r => decide (r.category = c')) t := by
          simp [List.filter_cons, hr, hc']
        rw [hdrop, hih, if_neg hc, if_neg hc]

/-- When every rule of a non-empty list has category `c`, the category counts
collapse to the single entry `l.length`. -/
theorem categoryCounts_single (l : List Rule) (c : RuleCategory)
    (hne : l ≠ []) (hall : ∀ r ∈ l, r.category = c) :
    categoryCounts l = [l.length] := by
  have hk : l.length ≠ 0 := fun hh => hne (List.length_eq_zero.mp hh)
  have hcounts : allCategories.map (fun c' =>
      (l.filter (fun r => r.category = c')).length)
      = allCategories.map (fun c' => if c' = c then l.length else 0) :=
    List.map_congr_left fun c' _ => filter_category_length l c c' hall
  rw [categoryCounts, hcounts]
  cases c <;> simp [allCategories, List.filter_cons, hk]

/-- When every category holds exactly `n ≠ 0` of the rules, the category
counts are seven copies of `n`. -/
theorem categoryCounts_even (l : List Rule) (n : ℕ) (hn : n ≠ 0)
    (hall : ∀ c : RuleCategory, (l.filter (fun r => r.category = c)).length = n) :
    categoryCounts l = [n, n, n, n, n, n, n] := by
  have hcounts : allCategories.map (fun c' =>
      (l.filter (fun r => r.category = c')).length)
      = allCategories.map (fun _ => n) :=
    List.map_congr_left fun c' _ => hall c'
  rw [categoryCounts, hcounts]
  simp [allCategories, List.filter_cons, hn]

/-- Entropy of a single category count: `-log(1+1e-10)` (not 0; the source
smooths the probability 1 by `1e-10` inside the logarithm). -/
theorem entropyOfCounts_single (k : ℕ) (hk : k ≠ 0) :
    entropyOfCounts [k] = -Real.log (1 + 1e-10) := by
  have hkr : ((k : ℝ)) ≠ 0 := Nat.cast_ne_zero.mpr hk
  simp only [entropyOfCounts, List.sum_cons, List.sum_nil, List.map_cons,
    List.map_nil, Nat.add_zero]
  rw [div_self hkr]
  simp

/-- Entropy of seven equal category counts: `-log(1/7+1e-10)`, slightly less
than `log 7`. -/
theorem entropyOfCounts_even (n : ℕ) (hn : n ≠ 0) :
    entropyOfCounts [n, n, n, n, n, n, n] = -Real.log (1 / 7 + 1e-10) := by
  have hnr : ((n : ℝ)) ≠ 0 := Nat.cast_ne_zero.mpr hn
  simp only [entropyOfCounts, List.sum_cons, List.sum_nil, List.map_cons,
    List.map_nil]
  rw [show n + (n + (n + (n + (n + (n + (n + 0)))))) = 7 * n from by ring]
  have hq : ((n : ℝ)) / (((7 * n : ℕ) : ℕ) : ℝ) = 1 / 7 := by
    push_cast
    field_simp
    ring
  rw [hq]
  ring_nf

/-- Entropy value when all passed rules share one category: the `1e-10`
smoothing term inside the logarithm makes it `-log(1+1e-10)/log 7`, a tiny
negative number rather than 0. -/
theorem entropy_single_category (rules : List Rule) (c : RuleCategory)
    (hne : rules.filter (·.passed) ≠ [])
    (hall : ∀ r ∈ rules, r.passed = true → r.category = c) :
    compute_governance_entropy rules
      = -(Real.log (1 + 1e-10)) / Real.log 7 := by
  have hallp : ∀ r ∈ rules.filter (·.passed), r.category = c := by
    intro r hr
    have hm := List.mem_filter.mp hr
    exact hall r hm.1 (by simpa using hm.2)
  have hk : (rules.filter (·.passed)).length ≠ 0 :=
    fun hh => hne (List.length_eq_zero.mp hh)
  have hemp : (rules.filter (·.passed)).isEmpty = false :=
    List.isEmpty_eq_false.mpr hne
  rw [compute_governance_entropy]
  simp only [hemp, Bool.false_eq_true, if_false]
  rw [categoryCounts_single _ c hne hallp, entropyOfCounts_single _ hk]

/-- Entropy value when the passed rules are spread evenly (count `n` per
category) over all seven categories: `-log(1/7+1e-10)/log 7`, slightly below
the nominal maximum 1. -/
theorem entropy_even_spread (rules : List Rule) (n : ℕ) (hn : n ≠ 0)
    (hall : ∀ c : RuleCategory,
      ((rules.filter (·.passed)).filter (fun r => r.category = c)).length = n) :
    compute_governance_entropy rules
      = -(Real.log (1 / 7 + 1e-10)) / Real.log 7 := by
  have hne : rules.filter (·.passed) ≠ [] := by
    intro hnil
    have h1 := hall .taxation
    rw [hnil] at h1
    simp at h1
    exact hn h1.symm
  have hemp : (rules.filter (·.passed)).isEmpty = false :=
    List.isEmpty_eq_false.mpr hne
  rw [compute_governance_entropy]
  simp only [hemp, Bool.false_eq_true, if_false]
  rw [categoryCounts_even _ n hn hall, entropyOfCounts_even _ hn]

/-- The natural log of 7 exceeds 1. -/
theorem log_seven_gt_one : 1 < Real.log 7 := by
  rw [show (1 : ℝ) = Real.log (Real.exp 1) by rw [Real.log_exp]]
  apply Real.log_lt_log (Real.exp_pos 1)
  calc Real.exp 1 < 2.7182818286 := Real.exp_one_lt_d9
    _ < 7 := by norm_num

/-- C7 counterexample: the claim asserts the entropy is exactly 0 when all
passed rules share a single category; for one passed taxation rule the
source's `1e-10` smoothing inside the logarithm makes it
`-log(1+1e-10)/log 7 ≈ -5.1e-11`, which is not 0. -/
theorem governance_entropy_single_category_cex :
    compute_governance_entropy [mkRule .taxation true] ≠ 0 := by
  rw [entropy_single_category [mkRule .taxation true] .taxation (by decide) (by decide)]
  have hL : 0 < Real.log (1 + 1e-10) := Real.log_pos (by norm_num)
  have h7 : 0 < Real.log 7 := Real.log_pos (by norm_num)
  have hlt : -(Real.log (1 + 1e-10)) / Real.log 7 < 0 := by
    rw [neg_div]
    exact neg_lt_zero.mpr (div_pos hL h7)
  exact ne_of_lt hlt

/-- C7 (amended): governance entropy is exactly 0 when no rules passed; when
all passed rules share a single category it is strictly negative yet within
`1e-10` of 0 (the `1e-10` smoothing term inside the logarithm prevents an
exact 0); when the passed rules are spread evenly across all 7 categories it
is strictly below 1.0 yet within `7e-10` of 1.0 (normalization divides by
the log of the fixed category count 7). -/
theorem governance_entropy_spec (rules : List Rule) :
    ((rules.filter (·.passed)).isEmpty = true →
       compute_governance_entropy rules = 0) ∧
    (∀ c : RuleCategory, rules.filter (·.passed) ≠ [] →
       (∀ r ∈ rules, r.passed = true → r.category = c) →
       compute_governance_entropy rules < 0 ∧
       -(1e-10) ≤ compute_governance_entropy rules) ∧
    (∀ n : ℕ, n ≠ 0 →
       (∀ c : RuleCategory,
         ((rules.filter (·.passed)).filter (fun r => r.category = c)).length = n) →
       1 - 7e-10 < compute_governance_entropy rules ∧
       compute_governance_entropy rules < 1) := by
  have h7 : 0 < Real.log 7 := Real.log_pos (by norm_num)
  have h71 : 1 < Real.log 7 := log_seven_gt_one
  refine ⟨?_, ?_, ?_⟩
  · intro h
    simp [compute_governance_entropy, h]
  · intro c hne hall
    rw [entropy_single_category rules c hne hall]
    have hL : 0 < Real.log (1 + 1e-10) := Real.log_pos (by norm_num)
    have hL1 : Real.log (1 + 1e-10) ≤ 1e-10 := by
      have := Real.log_le_sub_one_of_pos (show (0 : ℝ) < 1 + 1e-10 by norm_num)
      linarith
    constructor
    · rw [neg_div]
      exact neg_lt_zero.mpr (div_pos hL h7)
    · rw [neg_div, neg_le_neg_iff]
      exact le_trans (div_le_self hL.le h71.le) hL1
  · intro n hn hall
    rw [entropy_even_spread rules n hn hall]
    have hprod : (1 / 7 + 1e-10 : ℝ) = (1 + 7e-10) / 7 := by norm_num
    have hM : 0 < Real.log (1 + 7e-10) := Real.log_pos (by norm_num)
    have hM1 : Real.log (1 + 7e-10) ≤ 7e-10 := by
      have := Real.log_le_sub_one_of_pos (show (0 : ℝ) < 1 + 7e-10 by norm_num)
      linarith
    have hval : -(Real.log (1 / 7 + 1e-10)) / Real.log 7
        = 1 - Real.log (1 + 7e-10) / Real.log 7 := by
      rw [hprod, Real.log_div (by norm_num) (by norm_num)]
      field_simp
    rw [hval]
    constructor
    · have hdiv : Real.log (1 + 7e-10) / Real.log 7 < 7e-10 :=
        lt_of_lt_of_le (div_lt_self hM h71) hM1
      linarith
    · have hdiv : 0 < Real.log (1 + 7e-10) / Real.log 7 := div_pos hM h7
      linarith

/-- C7 witness: no-passed-rules gives 0; a lone passed taxation rule is
negative within `1e-10` of 0; seven passed rules, one per category, lie
within `7e-10` below 1. -/
theorem governance_entropy_spec_witness :
    compute_governance_entropy [mkRule .taxation false] = 0 ∧
    (compute_governance_entropy [mkRule .taxation true] < 0 ∧
       -(1e-10) ≤ compute_governance_entropy [mkRule .taxation true]) ∧
    (1 - 7e-10 < compute_governance_entropy sevenRules ∧
       compute_governance_entropy sevenRules < 1) :=
  ⟨(governance_entropy_spec [mkRule .taxation false]).1 (by decide),
   (governance_entropy_spec [mkRule .taxation true]).2.1 .taxation
     (by decide) (by decide),
   (governance_entropy_spec sevenRules).2.2 1 (by decide)
     (fun c => by cases c <;> rfl)⟩

end Genesis
